import Mathlib

/-!
# Verification of the GitHub notifier's dedup/persistence core

Shallow embedding of `src/main.rs` of `rust-macos-github-notifier`.
The program performs one fetch-diff-notify cycle: it fetches the current
notification records, compares them against the comma-joined seen-key file,
displays a desktop notification for each unseen record, and overwrites the
file with the keys of all currently fetched records.

Strings are embedded as Lean `String`; all Rust `split` patterns in this
program are single characters, so `str::split` is embedded as `String.split`
on a character-equality predicate, which has the same semantics (Rust
`"".split(',')` yields `[""]`, as does `String.split`).
-/

namespace GhNotifier

/-- Field of `Notification` in `main.rs`: `struct NotificationSubject { title, url }`. -/
structure NotificationSubject where
  title : String
  url : Option String
deriving DecidableEq

/-- `struct Notification { id, subject, reason, updated_at }` from `main.rs`. -/
structure Notification where
  id : String
  subject : NotificationSubject
  reason : String
  updated_at : String
deriving DecidableEq

/-- `const ENV_VAR_NAME: &str = "GH_NOTIFIER_TOKEN";` -/
def ENV_VAR_NAME : String := "GH_NOTIFIER_TOKEN"

/-- Rust `str::split` with a single-character pattern, embedded at the level of
the character list (so that it evaluates by kernel reduction).
`splitChar_eq_split` below proves it equal to `String.split` on the
corresponding predicate, which has the same semantics as the Rust pattern
split: `"".split(',')` yields `[""]`, `"a,b".split(',')` yields `["a","b"]`. -/
def splitChar (sep : Char) (s : String) : List String :=
  (s.data.splitOnP (fun c => c == sep)).map String.mk

/-- The deduplication key built in the loop of `main.rs`:
`let mut identifier = notification.id.to_owned(); identifier.push_str(&notification.updated_at);` -/
def seenKey (n : Notification) : String := n.id ++ n.updated_at

/-- Modelled from the spec: `util::build_pull_or_issue_url` (the `util` module is
not under `src/`). Spec §4.4: given an optional API resource URL, produce a
browsable web URL, or no link if the input is absent or does not match a
recognized pull/issue resource pattern. -/
def build_pull_or_issue_url : Option String → String
  | none => ""
  | some url =>
    let apiBase := "https://api.github.com/repos/"
    if url.startsWith apiBase then
      let parts := splitChar '/' (url.drop apiBase.length)
      if parts.contains "pulls" || parts.contains "issues" then
        "https://github.com/" ++
          String.intercalate "/" (parts.map (fun p => if p = "pulls" then "pull" else p))
      else ""
    else ""

/-- Modelled from the spec: the payload accepted by the notification renderer
(the `notify` module is not under `src/`): title, subtitle, message body and a
click-action URL, exactly the fields set via `NotificationParamsBuilder` in
`main.rs`. -/
structure Payload where
  title : String
  subtitle : String
  message : String
  openUrl : String
deriving DecidableEq

/-- The payload assembled in the loop of `main.rs`: fixed title literal,
subtitle `notification.reason.split("_") … join(" ")`, message
`notification.subject.title`, open `build_pull_or_issue_url(subject.url)`. -/
def buildPayload (n : Notification) : Payload :=
  { title := "New Github Notification"
    subtitle := String.intercalate " " (splitChar '_' n.reason)
    message := n.subject.title
    openUrl := build_pull_or_issue_url n.subject.url }

/-- `main.rs` lines 80-85: `fs::read_to_string` with `Err → ""`, then
`.split(",")`. The file state is `none` when the file is absent or unreadable,
`some s` when it is readable with contents `s`. -/
def read_id_strs (fileContents : Option String) : List String :=
  splitChar ',' (fileContents.getD "")

/-- `main.rs` lines 125-142: write `new_ids[0]` when there is exactly one key,
the comma-join when there are several, and nothing at all when there are none
(the previous file state survives). Returns the resulting file state. -/
def save (fileBefore : Option String) (newIds : List String) : Option String :=
  match newIds with
  | [] => fileBefore
  | [single] => some single
  | ids => some (String.intercalate "," ids)

/-- State accumulated by the notification loop of `main.rs`: the `new_ids`
vector, the payloads handed to `notify` (tagged with the feed position they
came from), and the positions whose `NotificationParamsBuilder::build` failed
and were only `dbg!`-logged. -/
structure LoopState where
  newIds : List String
  notified : List (Nat × Payload)
  buildFailures : List Nat
deriving DecidableEq

/-- The `for notification in &response_json` loop of `main.rs`, lines 92-123.
`readIds` is `read_id_strs`, `ok i` tells whether building/displaying the
payload of the record at feed position `i` succeeds, `i` is the position of
the first record of the remaining list. Every key is pushed to `new_ids`
before the membership check; a seen record is skipped; an unseen one is
notified, or only logged when the renderer fails. -/
def dedupLoop (readIds : List String) (ok : Nat → Bool) : Nat → List Notification → LoopState
  | _, [] => ⟨[], [], []⟩
  | i, n :: rest =>
    let identifier := seenKey n
    let st := dedupLoop readIds ok (i + 1) rest
    if readIds.contains identifier then
      ⟨identifier :: st.newIds, st.notified, st.buildFailures⟩
    else if ok i then
      ⟨identifier :: st.newIds, (i, buildPayload n) :: st.notified, st.buildFailures⟩
    else
      ⟨identifier :: st.newIds, st.notified, i :: st.buildFailures⟩

/-- Modelled from the spec: the two error-notification side channels
`util::notify_error` and `util::notify_connection_error` (the `util` module is
not under `src/`). A connection error built from a non-200 response carries the
status code and the detail string as the two components of
`format!("{status} {detail}")`; a transport error carries no status code. -/
inductive ErrorNote where
  | configError (varName : String)
  | connectionError (status : Option Nat) (detail : String)
deriving DecidableEq

/-- A line printed to standard output by `main.rs`. `errorResponse status body`
stands for `println!("Error response: {} {}", status, text)` with the
unmodified response body; `raw` for the plain `println!("{}", …)` calls. -/
inductive StdoutLine where
  | raw (msg : String)
  | errorResponse (status : Nat) (body : String)
deriving DecidableEq

/-- Everything observable about one run: error notifications emitted, payloads
dispatched to the renderer (with their feed positions), renderer failures
logged, stdout, the persistence-file state after the run, and the process exit
code. -/
structure RunResult where
  errorNotes : List ErrorNote
  notified : List (Nat × Payload)
  buildFailures : List Nat
  stdout : List StdoutLine
  fileAfter : Option String
  exitCode : Nat
deriving DecidableEq

/-- The successful-response tail of `main` (lines 80-143): read the seen-key
file, run the dedup loop over the fetched records, save `new_ids`, exit 0. -/
def successRun (fileBefore : Option String) (records : List Notification)
    (ok : Nat → Bool) : RunResult :=
  let readIds := read_id_strs fileBefore
  let st := dedupLoop readIds ok 0 records
  { errorNotes := []
    notified := st.notified
    buildFailures := st.buildFailures
    stdout := []
    fileAfter := save fileBefore st.newIds
    exitCode := 0 }

/-- Outcome of the HTTP fetch as `main` observes it: a transport-level failure,
or a response with a status code, a body text, and the result of parsing the
body as a JSON list of records (`none` when parsing fails). -/
inductive FetchOutcome where
  | transportError (msg : String)
  | response (status : Nat) (text : String) (json : Option (List Notification))

/-- The default-action path of `main` in `main.rs` (the early `parse_args`
return is out of scope, per the spec). `token` is the value of
`GH_NOTIFIER_TOKEN` (absent → error notification, exit 1); a transport error
or a non-200 status produces a connection-error notification and exit 1 with
the file untouched; a JSON parse failure makes `main` return `Err`, i.e. exit
1; otherwise the dedup loop runs and the keys are saved. -/
def program : Option String → Option String → FetchOutcome → (Nat → Bool) → RunResult
  | none, fileBefore, _, _ =>
    { errorNotes := [.configError ENV_VAR_NAME]
      notified := []
      buildFailures := []
      stdout := [.raw ENV_VAR_NAME]
      fileAfter := fileBefore
      exitCode := 1 }
  | some _, fileBefore, .transportError msg, _ =>
    { errorNotes := [.connectionError none msg]
      notified := []
      buildFailures := []
      stdout := [.raw msg]
      fileAfter := fileBefore
      exitCode := 1 }
  | some _, fileBefore, .response status text json, ok =>
    if status ≠ 200 then
      let detail := String.join (splitChar ' ' text)
      { errorNotes := [.connectionError (some status) detail]
        notified := []
        buildFailures := []
        stdout := [.errorResponse status text]
        fileAfter := fileBefore
        exitCode := 1 }
    else
      match json with
      | none =>
        { errorNotes := []
          notified := []
          buildFailures := []
          stdout := []
          fileAfter := fileBefore
          exitCode := 1 }
      | some records => successRun fileBefore records ok

/-- The renderer outcome in which every payload builds and displays. -/
def allOk : Nat → Bool := fun _ => true

/-! ## String-level bridge lemmas -/

theorem mk_data (s : String) : String.mk s.data = s := rfl

/-- `splitChar` is exactly the library's `String.split` on the corresponding
character predicate. -/
theorem splitChar_eq_split (sep : Char) (s : String) :
    splitChar sep s = s.split (fun c => c == sep) :=
  (String.split_of_valid s (fun c => c == sep)).symm


theorem intercalate_cons_cons {α : Type} (sep x y : List α) (t : List (List α)) :
    List.intercalate sep (x :: y :: t) = x ++ sep ++ List.intercalate sep (y :: t) := by
  simp [List.intercalate, List.append_assoc]

theorem intercalate_cons_eq {α : Type} (sep x : List α) (xs : List (List α)) :
    List.intercalate sep (x :: xs) = x ++ (xs.map (fun a => sep ++ a)).flatten := by
  induction xs generalizing x with
  | nil => simp [List.intercalate]
  | cons y ys ih => rw [intercalate_cons_cons, ih y]; simp [List.append_assoc]

theorem intercalate_go_data (s : String) :
    ∀ (as : List String) (acc : String),
      (String.intercalate.go acc s as).data
        = acc.data ++ (as.map (fun a => s.data ++ a.data)).flatten
  | [], acc => by simp [String.intercalate.go]
  | a :: as, acc => by
    rw [String.intercalate.go, intercalate_go_data s as]
    simp [List.append_assoc]

theorem data_intercalate (s : String) (ks : List String) :
    (String.intercalate s ks).data = List.intercalate s.data (ks.map String.data) := by
  cases ks with
  | nil => simp [String.intercalate, List.intercalate]
  | cons a as =>
    rw [String.intercalate, intercalate_go_data, List.map_cons, intercalate_cons_eq,
      List.map_map]
    rfl

theorem splitOnP_singleton_intercalate (sep : Char) (ls : List (List Char))
    (hx : ∀ l ∈ ls, sep ∉ l) (hne : ls ≠ []) :
    (List.intercalate [sep] ls).splitOnP (fun c => c == sep) = ls := by
  induction ls with
  | nil => exact absurd rfl hne
  | cons hd tl ih =>
    cases tl with
    | nil =>
      have h1 : List.intercalate [sep] [hd] = hd := by simp [List.intercalate]
      rw [h1]
      refine List.splitOnP_eq_single _ _ (fun y hy H => ?_)
      rw [eq_of_beq H] at hy
      exact hx hd (by simp) hy
    | cons hd2 tl2 =>
      have h2 : List.intercalate [sep] (hd :: hd2 :: tl2)
          = hd ++ sep :: List.intercalate [sep] (hd2 :: tl2) := by
        rw [intercalate_cons_cons]; simp [List.append_assoc]
      rw [h2, List.splitOnP_first _ _ (fun y hy H => ?_) sep (by simp) _]
      · rw [ih (fun l hl => hx l (List.mem_cons_of_mem hd hl)) (by simp)]
      · rw [eq_of_beq H] at hy
        exact hx hd (by simp) hy

theorem splitChar_intercalate (sep : Char) (sepStr : String) (hs : sepStr.data = [sep])
    (ks : List String) (hne : ks ≠ []) (hfree : ∀ k ∈ ks, sep ∉ k.data) :
    splitChar sep (String.intercalate sepStr ks) = ks := by
  unfold splitChar
  rw [data_intercalate, hs,
    splitOnP_singleton_intercalate sep (ks.map String.data) ?_ ?_, List.map_map]
  · have hid : String.mk ∘ String.data = id := funext mk_data
    rw [hid, List.map_id]
  · intro l hl
    obtain ⟨k, hk, rfl⟩ := List.mem_map.1 hl
    exact hfree k hk
  · simpa using hne

theorem intercalate_nil_cons {α : Type} (sep : List α) {S : List (List α)} (h : S ≠ []) :
    List.intercalate sep ([] :: S) = sep ++ List.intercalate sep S := by
  cases S with
  | nil => exact absurd rfl h
  | cons y t => rw [intercalate_cons_cons]; simp

theorem intercalate_modifyHead_cons {α : Type} (sep : List α) (x : α) {S : List (List α)}
    (h : S ≠ []) :
    List.intercalate sep (S.modifyHead (fun l => x :: l)) = x :: List.intercalate sep S := by
  cases S with
  | nil => exact absurd rfl h
  | cons y t =>
    cases t with
    | nil => simp [List.intercalate]
    | cons z t2 =>
      simp only [List.modifyHead_cons]
      rw [intercalate_cons_cons, intercalate_cons_cons]
      simp

theorem intercalate_singleton_splitOnP (a b : Char) (l : List Char) :
    List.intercalate [b] (l.splitOnP (fun c => c == a))
      = l.map (fun c => if c = a then b else c) := by
  induction l with
  | nil => simp [List.intercalate]
  | cons x xs ih =>
    rw [List.splitOnP_cons]
    by_cases h : x = a
    · have hb : (x == a) = true := by simp [h]
      rw [hb, if_pos rfl, intercalate_nil_cons _ (List.splitOnP_ne_nil _ xs), ih]
      simp [h]
    · have hb : (x == a) = false := by simp [h]
      rw [hb]
      simp only [Bool.false_eq_true, if_false]
      rw [intercalate_modifyHead_cons _ _ (List.splitOnP_ne_nil _ xs), ih]
      simp [h]

theorem subtitle_eq_map (s : String) :
    String.intercalate " " (splitChar '_' s)
      = String.map (fun c => if c = '_' then ' ' else c) s := by
  have h1 : (String.intercalate " " (splitChar '_' s)).data
      = s.data.map (fun c => if c = '_' then ' ' else c) := by
    rw [data_intercalate]
    unfold splitChar
    rw [List.map_map]
    have hid : String.data ∘ String.mk = id := rfl
    rw [hid, List.map_id]
    exact intercalate_singleton_splitOnP '_' ' ' s.data
  rw [String.map_eq]
  exact congrArg String.mk h1

theorem flatten_modifyHead_cons {α : Type} (x : α) {S : List (List α)} (h : S ≠ []) :
    (S.modifyHead (fun l => x :: l)).flatten = x :: S.flatten := by
  cases S with
  | nil => exact absurd rfl h
  | cons y t => simp

theorem flatten_splitOnP (a : Char) (l : List Char) :
    (l.splitOnP (fun c => c == a)).flatten = l.filter (fun c => !(c == a)) := by
  induction l with
  | nil => rfl
  | cons x xs ih =>
    rw [List.splitOnP_cons]
    by_cases h : x = a
    · have hb : (x == a) = true := by simp [h]
      rw [hb]
      simp only [if_pos rfl, List.flatten_cons, List.nil_append, List.filter_cons, hb]
      simpa using ih
    · have hb : (x == a) = false := by simp [h]
      rw [hb]
      simp only [Bool.false_eq_true, if_false]
      rw [flatten_modifyHead_cons _ (List.splitOnP_ne_nil _ xs)]
      simp [List.filter_cons, hb, ih]

theorem join_splitChar (a : Char) (s : String) :
    String.join (splitChar a s) = String.mk (s.data.filter (fun c => !(c == a))) := by
  have h1 : (String.join (splitChar a s)).data = s.data.filter (fun c => !(c == a)) := by
    rw [String.data_join]
    unfold splitChar
    rw [List.map_map]
    have hid : String.data ∘ String.mk = id := rfl
    rw [hid, List.map_id]
    exact flatten_splitOnP a s.data
  exact congrArg String.mk h1

/-! ## Dedup-loop lemmas -/

theorem contains_iff_mem (l : List String) (a : String) : l.contains a = true ↔ a ∈ l :=
  List.elem_iff

/-- Unfolding of one loop iteration, with the membership test in
propositional form. -/
theorem dedupLoop_cons (readIds : List String) (ok : Nat → Bool) (i : Nat)
    (n : Notification) (rest : List Notification) :
    dedupLoop readIds ok i (n :: rest)
      = (let st := dedupLoop readIds ok (i + 1) rest
         if seenKey n ∈ readIds then
           ⟨seenKey n :: st.newIds, st.notified, st.buildFailures⟩
         else if ok i then
           ⟨seenKey n :: st.newIds, (i, buildPayload n) :: st.notified, st.buildFailures⟩
         else
           ⟨seenKey n :: st.newIds, st.notified, i :: st.buildFailures⟩) := by
  rw [dedupLoop]
  by_cases h : seenKey n ∈ readIds <;> by_cases h2 : ok i <;> simp [h, h2]

/-- The `new_ids` vector collects the key of every fetched record, in feed
order, whatever the loaded seen-set and the renderer outcomes are. -/
theorem dedupLoop_newIds (readIds : List String) (ok : Nat → Bool) (i : Nat)
    (records : List Notification) :
    (dedupLoop readIds ok i records).newIds = records.map seenKey := by
  induction records generalizing i with
  | nil => rfl
  | cons n rest ih =>
    rw [dedupLoop_cons]
    by_cases h : seenKey n ∈ readIds <;> by_cases h2 : ok i <;> simp [h, h2, ih]

/-- Every notified entry carries a feed position at or past the loop's start
position. -/
theorem dedupLoop_notified_ge (readIds : List String) (ok : Nat → Bool) (i : Nat)
    (records : List Notification) :
    ∀ q ∈ (dedupLoop readIds ok i records).notified, i ≤ q.1 := by
  induction records generalizing i with
  | nil => intro q hq; simp [dedupLoop] at hq
  | cons n rest ih =>
    intro q hq
    rw [dedupLoop_cons] at hq
    by_cases h : seenKey n ∈ readIds <;> by_cases h2 : ok i
    <;> simp only [h, h2, if_true, if_false, Bool.false_eq_true, Bool.true_eq_false,
      ite_true, ite_false] at hq
    · exact Nat.le_of_succ_le (ih (i + 1) q hq)
    · exact Nat.le_of_succ_le (ih (i + 1) q hq)
    · simp only [List.mem_cons] at hq
      rcases hq with hq | hq
      · subst hq; omega
      · exact Nat.le_of_succ_le (ih (i + 1) q hq)
    · exact Nat.le_of_succ_le (ih (i + 1) q hq)

/-- How many notifications the run dispatches for the record at feed position
`i + j`: none when its key is in the loaded seen-set (exact string equality),
otherwise exactly one when its payload builds, none when the renderer fails. -/
theorem dedupLoop_count_at (readIds : List String) (ok : Nat → Bool)
    (records : List Notification) (i j : Nat) (h : j < records.length) :
    ((dedupLoop readIds ok i records).notified.countP (fun q => q.1 == i + j))
      = if seenKey (records.get ⟨j, h⟩) ∈ readIds then 0
        else if ok (i + j) then 1 else 0 := by
  induction records generalizing i j with
  | nil => simp at h
  | cons n rest ih =>
    cases j with
    | zero =>
      rw [dedupLoop_cons]
      have hge := dedupLoop_notified_ge readIds ok (i + 1) rest
      have hzero : (dedupLoop readIds ok (i + 1) rest).notified.countP
          (fun q => q.1 == i + 0) = 0 := by
        refine List.countP_eq_zero.2 (fun q hq => ?_)
        have := hge q hq
        simp only [beq_iff_eq]
        omega
      by_cases hc : seenKey n ∈ readIds <;> by_cases h2 : ok i
      <;> simp only [hc, h2, if_true, if_false, Bool.false_eq_true, Bool.true_eq_false,
        ite_true, ite_false, List.get]
      · exact hzero
      · exact hzero
      · rw [List.countP_cons]
        simp only [Nat.add_zero] at *
        simp [h2, hzero]
      · simp only [Nat.add_zero] at *
        simp [h2, hzero]
    | succ j2 =>
      rw [dedupLoop_cons]
      have harith : i + 1 + j2 = i + (j2 + 1) := by omega
      have ihr := ih (i + 1) j2 (by simpa using Nat.lt_of_succ_lt_succ h)
      rw [harith] at ihr
      by_cases hc : seenKey n ∈ readIds <;> by_cases h2 : ok i
      <;> simp only [hc, h2, if_true, if_false, Bool.false_eq_true, Bool.true_eq_false,
        ite_true, ite_false, List.get]
      · exact ihr
      · exact ihr
      · rw [List.countP_cons]
        have hne2 : ((i, buildPayload n).1 == i + (j2 + 1)) = false := by
          simp only [beq_eq_false_iff_ne]
          omega
        simp only [hne2, cond_false, Nat.add_zero]
        exact ihr
      · exact ihr

/-- When every fetched record's key is already in the loaded seen-set, the loop
dispatches nothing. -/
theorem dedupLoop_notified_nil (readIds : List String) (ok : Nat → Bool) (i : Nat)
    (records : List Notification)
    (h : ∀ n ∈ records, seenKey n ∈ readIds) :
    (dedupLoop readIds ok i records).notified = [] := by
  induction records generalizing i with
  | nil => rfl
  | cons n rest ih =>
    rw [dedupLoop_cons]
    simp only [h n (by simp), if_true, ite_true]
    exact ih (i + 1) (fun m hm => h m (List.mem_cons_of_mem n hm))

/-- Every payload the run dispatches was built by `buildPayload` from a fetched
record whose key is absent from the loaded seen-set. -/
theorem dedupLoop_notified_mem (readIds : List String) (ok : Nat → Bool) (i : Nat)
    (records : List Notification) :
    ∀ q ∈ (dedupLoop readIds ok i records).notified,
      ∃ n ∈ records, q.2 = buildPayload n ∧ seenKey n ∉ readIds := by
  induction records generalizing i with
  | nil => intro q hq; simp [dedupLoop] at hq
  | cons n rest ih =>
    intro q hq
    rw [dedupLoop_cons] at hq
    by_cases hc : seenKey n ∈ readIds <;> by_cases h2 : ok i
    <;> simp only [hc, h2, if_true, if_false, Bool.false_eq_true, Bool.true_eq_false,
      ite_true, ite_false] at hq
    · obtain ⟨m, hm, hmp⟩ := ih (i + 1) q hq
      exact ⟨m, List.mem_cons_of_mem n hm, hmp⟩
    · obtain ⟨m, hm, hmp⟩ := ih (i + 1) q hq
      exact ⟨m, List.mem_cons_of_mem n hm, hmp⟩
    · simp only [List.mem_cons] at hq
      rcases hq with hq | hq
      · exact ⟨n, by simp, by rw [hq], hc⟩
      · obtain ⟨m, hm, hmp⟩ := ih (i + 1) q hq
        exact ⟨m, List.mem_cons_of_mem n hm, hmp⟩
    · obtain ⟨m, hm, hmp⟩ := ih (i + 1) q hq
      exact ⟨m, List.mem_cons_of_mem n hm, hmp⟩

/-- A nonempty `new_ids` vector is always written as its comma-join (the
single-key branch writes `new_ids[0]`, which is the same string). -/
theorem save_nonempty (file : Option String) (ks : List String) (h : ks ≠ []) :
    save file ks = some (String.intercalate "," ks) := by
  match ks with
  | [] => exact absurd rfl h
  | [k] => rfl
  | k1 :: k2 :: t => rfl

/-- A record at feed position `i + j` whose key is absent from the loaded
seen-set has its payload dispatched when every payload builds. -/
theorem dedupLoop_notified_mem_of_new (readIds : List String)
    (records : List Notification) (i j : Nat) (h : j < records.length)
    (hnew : seenKey (records.get ⟨j, h⟩) ∉ readIds) :
    (i + j, buildPayload (records.get ⟨j, h⟩))
      ∈ (dedupLoop readIds allOk i records).notified := by
  induction records generalizing i j with
  | nil => simp at h
  | cons n rest ih =>
    rw [dedupLoop_cons]
    cases j with
    | zero =>
      simp only [List.get] at hnew ⊢
      simp only [hnew, if_false, allOk, if_true, ite_true, ite_false, Nat.add_zero]
      exact List.mem_cons_self _ _
    | succ j2 =>
      simp only [List.get] at hnew ⊢
      have harith : i + 1 + j2 = i + (j2 + 1) := by omega
      have hmem := ih (i + 1) j2 (Nat.lt_of_succ_lt_succ h) hnew
      rw [harith] at hmem
      by_cases hc : seenKey n ∈ readIds
      <;> simp only [hc, if_true, if_false, allOk, ite_true, ite_false]
      · exact hmem
      · exact List.mem_cons_of_mem _ hmem

/-- A renderer outcome change at position `i` leaves the dispatches at later
positions unchanged. -/
theorem dedupLoop_notified_filter_gt (readIds : List String) (o1 o2 : Nat → Bool)
    (i : Nat) (hagree : ∀ j, j ≠ i → o1 j = o2 j) (k : Nat)
    (records : List Notification) :
    ((dedupLoop readIds o1 k records).notified.filter (fun q => i < q.1))
      = ((dedupLoop readIds o2 k records).notified.filter (fun q => i < q.1)) := by
  induction records generalizing k with
  | nil => rfl
  | cons n rest ih =>
    rw [dedupLoop_cons, dedupLoop_cons]
    by_cases hc : seenKey n ∈ readIds
    · simp only [hc, ite_true]
      exact ih (k + 1)
    · by_cases h1 : o1 k <;> by_cases h2 : o2 k
      <;> simp only [hc, h1, h2, if_true, if_false, Bool.false_eq_true,
        Bool.true_eq_false, ite_true, ite_false]
      · rw [List.filter_cons, List.filter_cons, ih (k + 1)]
      · have hk : k = i := by
          by_contra hk
          rw [hagree k hk] at h1
          exact h2 h1
        subst hk
        rw [List.filter_cons]
        have hlt : (decide (k < (k, buildPayload n).1)) = false := by simp
        rw [hlt]
        simp only [Bool.false_eq_true, if_false]
        exact ih (k + 1)
      · have hk : k = i := by
          by_contra hk
          rw [hagree k hk] at h1
          exact h1 h2
        subst hk
        rw [List.filter_cons]
        have hlt : (decide (k < (k, buildPayload n).1)) = false := by simp
        rw [hlt]
        simp only [Bool.false_eq_true, if_false]
        exact ih (k + 1)
      · exact ih (k + 1)

/-- A renderer outcome change at position `i` leaves the logged failures at
later positions unchanged. -/
theorem dedupLoop_failures_filter_gt (readIds : List String) (o1 o2 : Nat → Bool)
    (i : Nat) (hagree : ∀ j, j ≠ i → o1 j = o2 j) (k : Nat)
    (records : List Notification) :
    ((dedupLoop readIds o1 k records).buildFailures.filter (fun j => i < j))
      = ((dedupLoop readIds o2 k records).buildFailures.filter (fun j => i < j)) := by
  induction records generalizing k with
  | nil => rfl
  | cons n rest ih =>
    rw [dedupLoop_cons, dedupLoop_cons]
    by_cases hc : seenKey n ∈ readIds
    · simp only [hc, ite_true]
      exact ih (k + 1)
    · by_cases h1 : o1 k <;> by_cases h2 : o2 k
      <;> simp only [hc, h1, h2, if_true, if_false, Bool.false_eq_true,
        Bool.true_eq_false, ite_true, ite_false]
      · exact ih (k + 1)
      · have hk : k = i := by
          by_contra hk
          rw [hagree k hk] at h1
          exact h2 h1
        subst hk
        rw [List.filter_cons]
        have hlt : (decide (k < k)) = false := by simp
        rw [hlt]
        simp only [Bool.false_eq_true, if_false]
        exact ih (k + 1)
      · have hk : k = i := by
          by_contra hk
          rw [hagree k hk] at h1
          exact h1 h2
        subst hk
        rw [List.filter_cons]
        have hlt : (decide (k < k)) = false := by simp
        rw [hlt]
        simp only [Bool.false_eq_true, if_false]
        exact ih (k + 1)
      · rw [List.filter_cons, List.filter_cons, ih (k + 1)]

/-! ## Claim theorems -/

/-- C1: Pruning — the key list persisted at the end of a successful run is
exactly `seenKey` of each fetched record, in feed order, independent of the
loaded seen-set (quantified through `file`); keys present only in the loaded
set are not carried forward. -/
theorem C1_pruning (file : Option String) (records : List Notification)
    (ok : Nat → Bool) :
    (dedupLoop (read_id_strs file) ok 0 records).newIds = records.map seenKey
    ∧ (successRun file records ok).fileAfter = save file (records.map seenKey) := by
  refine ⟨dedupLoop_newIds _ _ _ _, ?_⟩
  show save file (dedupLoop (read_id_strs file) ok 0 records).newIds = _
  rw [dedupLoop_newIds]

/-- C2: a fetched record's key is the concatenation of its id and updated_at,
and (with the renderer succeeding everywhere) the record at feed position `j`
is dispatched exactly once iff that key is absent from the loaded seen-set
under exact string equality (list membership), and not at all otherwise. -/
theorem C2_dispatch_iff_unseen (file : Option String) (records : List Notification)
    (j : Nat) (h : j < records.length) :
    seenKey (records.get ⟨j, h⟩)
        = (records.get ⟨j, h⟩).id ++ (records.get ⟨j, h⟩).updated_at
    ∧ ((successRun file records allOk).notified.countP (fun q => q.1 == j))
        = if seenKey (records.get ⟨j, h⟩) ∈ read_id_strs file then 0 else 1 := by
  refine ⟨rfl, ?_⟩
  show ((dedupLoop (read_id_strs file) allOk 0 records).notified.countP
      (fun q => q.1 == j)) = _
  have hcount := dedupLoop_count_at (read_id_strs file) allOk records 0 j h
  rw [Nat.zero_add] at hcount
  rw [hcount]
  simp [allOk]

/-- C2 witness: with history `"1t1"`, the unseen record at position 1 is
dispatched exactly once. -/
theorem C2_dispatch_iff_unseen_witness :
    (1 : Nat) < 2
    ∧ ((successRun (some "1t1")
        [⟨"1", ⟨"a", none⟩, "mention", "t1"⟩, ⟨"2", ⟨"b", none⟩, "subscribed", "t2"⟩]
        allOk).notified.countP (fun q => q.1 == 1)) = 1 := by
  refine ⟨by decide, ?_⟩
  have h := (C2_dispatch_iff_unseen (some "1t1")
      [⟨"1", ⟨"a", none⟩, "mention", "t1"⟩, ⟨"2", ⟨"b", none⟩, "subscribed", "t2"⟩]
      1 (by decide)).2
  rw [h]
  decide

/-- C3 counterexample: with a record whose id contains a comma, a second run on
the identical feed re-dispatches it — the comma-joined persistence file splits
the key apart on load, so the claim fails as universally stated. -/
theorem C3_counterexample :
    (successRun
      (successRun none [⟨"a,b", ⟨"t", none⟩, "mention", ""⟩] allOk).fileAfter
      [⟨"a,b", ⟨"t", none⟩, "mention", ""⟩] allOk).notified ≠ [] := by
  decide

/-- C3 (amended): when no fetched record's key contains a comma, running a
second time with the unchanged feed response dispatches nothing. -/
theorem C3_idempotent (file : Option String) (records : List Notification)
    (o1 o2 : Nat → Bool)
    (hfree : ∀ n ∈ records, ',' ∉ (seenKey n).data) :
    (successRun (successRun file records o1).fileAfter records o2).notified = [] := by
  cases records with
  | nil => rfl
  | cons n rest =>
    have hkeys : (successRun file (n :: rest) o1).fileAfter
        = some (String.intercalate "," ((n :: rest).map seenKey)) := by
      show save file (dedupLoop (read_id_strs file) o1 0 (n :: rest)).newIds = _
      rw [dedupLoop_newIds]
      exact save_nonempty file _ (by simp)
    rw [hkeys]
    show (dedupLoop
        (read_id_strs (some (String.intercalate "," ((n :: rest).map seenKey))))
        o2 0 (n :: rest)).notified = []
    apply dedupLoop_notified_nil
    intro m hm
    have hsplit :
        read_id_strs (some (String.intercalate "," ((n :: rest).map seenKey)))
          = (n :: rest).map seenKey := by
      show splitChar ',' (String.intercalate "," ((n :: rest).map seenKey)) = _
      refine splitChar_intercalate ',' "," rfl _ (by simp) ?_
      intro k hk
      obtain ⟨x, hx, rfl⟩ := List.mem_map.1 hk
      exact hfree x hx
    rw [hsplit]
    exact List.mem_map_of_mem seenKey hm

/-- C3 witness: two comma-free records notified on a first run are not
re-notified on a second run over the same feed. -/
theorem C3_idempotent_witness :
    (∀ n ∈ [(⟨"1", ⟨"a", none⟩, "mention", "t1"⟩ : Notification),
            ⟨"2", ⟨"b", none⟩, "subscribed", "t2"⟩], ',' ∉ (seenKey n).data)
    ∧ (successRun
        (successRun (some "old") [⟨"1", ⟨"a", none⟩, "mention", "t1"⟩,
          ⟨"2", ⟨"b", none⟩, "subscribed", "t2"⟩] allOk).fileAfter
        [⟨"1", ⟨"a", none⟩, "mention", "t1"⟩,
          ⟨"2", ⟨"b", none⟩, "subscribed", "t2"⟩] allOk).notified = [] :=
  ⟨by decide,
   C3_idempotent (some "old")
     [⟨"1", ⟨"a", none⟩, "mention", "t1"⟩, ⟨"2", ⟨"b", none⟩, "subscribed", "t2"⟩]
     allOk allOk (by decide)⟩

/-- C4 counterexample: saving the single key `"a,b"` and loading yields
`["a", "b"]`, not `["a,b"]` — the round trip fails when a key contains the
delimiter, so the claim fails as universally stated. -/
theorem C4_counterexample : read_id_strs (save none ["a,b"]) ≠ ["a,b"] := by
  decide

/-- C4 (amended): saving an empty key list writes nothing and leaves the file
untouched; one key is written alone; two or more are comma-joined; and for a
nonempty list of comma-free keys, loading after saving returns exactly the
keys in original order. -/
theorem C4_save_load (file : Option String) (k : String) (ks : List String)
    (hne : ks ≠ []) (hfree : ∀ x ∈ ks, ',' ∉ x.data) :
    save file [] = file
    ∧ save file [k] = some k
    ∧ (2 ≤ ks.length → save file ks = some (String.intercalate "," ks))
    ∧ read_id_strs (save file ks) = ks := by
  refine ⟨rfl, rfl, fun _ => save_nonempty file ks hne, ?_⟩
  rw [save_nonempty file ks hne]
  show splitChar ',' (String.intercalate "," ks) = ks
  exact splitChar_intercalate ',' "," rfl ks hne hfree

/-- C4 witness: the comma-free keys `["x", "y"]` round-trip through save and
load. -/
theorem C4_save_load_witness :
    (["x", "y"] ≠ ([] : List String))
    ∧ read_id_strs (save (some "old") ["x", "y"]) = ["x", "y"] :=
  ⟨by decide,
   (C4_save_load (some "old") "solo" ["x", "y"] (by decide) (by decide)).2.2.2⟩

/-- C5 counterexample: on a first run with no history file, the record whose id
and updated_at are both empty is classified as already seen (its key `""` is a
member of the loaded collection) and nothing is dispatched — contradicting the
claim that every fetched record is classified as new on such a run. -/
theorem C5_counterexample :
    seenKey ⟨"", ⟨"t", none⟩, "mention", ""⟩ ∈ read_id_strs none
    ∧ (successRun none [⟨"", ⟨"t", none⟩, "mention", ""⟩] allOk).notified = [] := by
  decide

/-- C5 (amended): an absent/unreadable file and an empty file are both loaded
as the collection containing the single empty string — not an error, the run
completes with exit code 0 — and every fetched record whose key is nonempty is
classified as new. -/
theorem C5_empty_history (file : Option String) (records : List Notification)
    (ok : Nat → Bool) (n : Notification)
    (hfile : file = none ∨ file = some "")
    (hn : n ∈ records) (hne : seenKey n ≠ "") :
    read_id_strs file = [""]
    ∧ (successRun file records ok).exitCode = 0
    ∧ (successRun file records ok).errorNotes = []
    ∧ seenKey n ∉ read_id_strs file := by
  have h1 : read_id_strs file = [""] := by
    rcases hfile with rfl | rfl <;> rfl
  refine ⟨h1, rfl, rfl, ?_⟩
  rw [h1]
  simp [hne]

/-- C5 witness: on an absent-file run, the record with key `"1t1"` is
classified as new. -/
theorem C5_empty_history_witness :
    ((⟨"1", ⟨"a", none⟩, "mention", "t1"⟩ : Notification)
        ∈ [(⟨"1", ⟨"a", none⟩, "mention", "t1"⟩ : Notification)])
    ∧ seenKey ⟨"1", ⟨"a", none⟩, "mention", "t1"⟩ ∉ read_id_strs none :=
  ⟨by decide,
   (C5_empty_history none [⟨"1", ⟨"a", none⟩, "mention", "t1"⟩] allOk
     ⟨"1", ⟨"a", none⟩, "mention", "t1"⟩ (Or.inl rfl) (by decide) (by decide)).2.2.2⟩

/-- C6: every record classified as new is dispatched (with the renderer
succeeding) with title the fixed literal `"New Github Notification"`, subtitle
the reason code with every underscore replaced by a space (unchanged when it
has no underscore), and message the record's subject title verbatim. -/
theorem C6_payload_shape (file : Option String) (records : List Notification)
    (j : Nat) (h : j < records.length)
    (hnew : seenKey (records.get ⟨j, h⟩) ∉ read_id_strs file) :
    (j, buildPayload (records.get ⟨j, h⟩)) ∈ (successRun file records allOk).notified
    ∧ (buildPayload (records.get ⟨j, h⟩)).title = "New Github Notification"
    ∧ (buildPayload (records.get ⟨j, h⟩)).subtitle
        = String.map (fun c => if c = '_' then ' ' else c) (records.get ⟨j, h⟩).reason
    ∧ (buildPayload (records.get ⟨j, h⟩)).message = (records.get ⟨j, h⟩).subject.title
    ∧ ((∀ c ∈ (records.get ⟨j, h⟩).reason.data, c ≠ '_') →
        (buildPayload (records.get ⟨j, h⟩)).subtitle = (records.get ⟨j, h⟩).reason) := by
  refine ⟨?_, rfl, subtitle_eq_map _, rfl, ?_⟩
  · have hm := dedupLoop_notified_mem_of_new (read_id_strs file) records 0 j h hnew
    rw [Nat.zero_add] at hm
    exact hm
  · intro hund
    show String.intercalate " " (splitChar '_' (records.get ⟨j, h⟩).reason) = _
    rw [subtitle_eq_map, String.map_eq]
    have h2 : (records.get ⟨j, h⟩).reason.data.map (fun c => if c = '_' then ' ' else c)
        = (records.get ⟨j, h⟩).reason.data := by
      conv_rhs => rw [← List.map_id ((records.get ⟨j, h⟩).reason.data)]
      exact List.map_congr_left (fun a ha => by simp [hund a ha])
    rw [h2]

/-- C6 witness: an unseen `review_requested` record is dispatched with the
fixed title, the de-underscored subtitle and the verbatim subject title. -/
theorem C6_payload_shape_witness :
    (0 : Nat) < 1
    ∧ (buildPayload ⟨"9", ⟨"Fix the bug", none⟩, "review_requested", "t9"⟩).subtitle
        = String.map (fun c => if c = '_' then ' ' else c) "review_requested" := by
  refine ⟨by decide, ?_⟩
  exact (C6_payload_shape (some "z") [⟨"9", ⟨"Fix the bug", none⟩, "review_requested", "t9"⟩]
    0 (by decide) (by decide)).2.2.1

/-- C7: a response with status other than 200 produces exactly one
connection-error notification, exit code 1, no informational dispatches, and
an untouched persistence file. -/
theorem C7_non200 (token : String) (file : Option String) (status : Nat)
    (text : String) (json : Option (List Notification)) (ok : Nat → Bool)
    (h : status ≠ 200) :
    (program (some token) file (.response status text json) ok).errorNotes
        = [.connectionError (some status) (String.join (splitChar ' ' text))]
    ∧ (program (some token) file (.response status text json) ok).exitCode = 1
    ∧ (program (some token) file (.response status text json) ok).notified = []
    ∧ (program (some token) file (.response status text json) ok).fileAfter = file := by
  simp only [program]
  rw [if_pos h]
  exact ⟨rfl, rfl, rfl, rfl⟩

/-- C7 witness: a 401 response with history `"k"` leaves the file untouched,
dispatches nothing and exits 1. -/
theorem C7_non200_witness :
    ((401 : Nat) ≠ 200)
    ∧ (program (some "tok") (some "k")
        (.response 401 "Bad credentials" none) allOk).exitCode = 1
    ∧ (program (some "tok") (some "k")
        (.response 401 "Bad credentials" none) allOk).fileAfter = some "k" :=
  ⟨by decide,
   (C7_non200 "tok" (some "k") 401 "Bad credentials" none allOk (by decide)).2.1,
   (C7_non200 "tok" (some "k") 401 "Bad credentials" none allOk (by decide)).2.2.2⟩

/-- C8: changing the renderer outcome at feed position `i` changes neither the
persisted file, nor the exit code, nor the dispatches at positions after `i`,
nor the logged failures at positions after `i`. -/
theorem C8_renderer_isolation (file : Option String) (records : List Notification)
    (i : Nat) (o1 o2 : Nat → Bool) (hagree : ∀ j, j ≠ i → o1 j = o2 j) :
    (successRun file records o1).fileAfter = (successRun file records o2).fileAfter
    ∧ (successRun file records o1).exitCode = (successRun file records o2).exitCode
    ∧ (successRun file records o1).notified.filter (fun q => i < q.1)
        = (successRun file records o2).notified.filter (fun q => i < q.1)
    ∧ (successRun file records o1).buildFailures.filter (fun j => i < j)
        = (successRun file records o2).buildFailures.filter (fun j => i < j) := by
  refine ⟨?_, rfl, ?_, ?_⟩
  · show save file (dedupLoop (read_id_strs file) o1 0 records).newIds
        = save file (dedupLoop (read_id_strs file) o2 0 records).newIds
    rw [dedupLoop_newIds, dedupLoop_newIds]
  · exact dedupLoop_notified_filter_gt (read_id_strs file) o1 o2 i hagree 0 records
  · exact dedupLoop_failures_filter_gt (read_id_strs file) o1 o2 i hagree 0 records

/-- C8 witness: with two unseen records, failing the renderer at position 0
leaves the persisted file and the dispatches after position 0 unchanged. -/
theorem C8_renderer_isolation_witness :
    (successRun none [⟨"1", ⟨"a", none⟩, "mention", "t1"⟩,
        ⟨"2", ⟨"b", none⟩, "subscribed", "t2"⟩] allOk).fileAfter
      = (successRun none [⟨"1", ⟨"a", none⟩, "mention", "t1"⟩,
          ⟨"2", ⟨"b", none⟩, "subscribed", "t2"⟩] (fun m => !(m == 0))).fileAfter
    ∧ (successRun none [⟨"1", ⟨"a", none⟩, "mention", "t1"⟩,
        ⟨"2", ⟨"b", none⟩, "subscribed", "t2"⟩] allOk).notified.filter
          (fun q => 0 < q.1)
      = (successRun none [⟨"1", ⟨"a", none⟩, "mention", "t1"⟩,
          ⟨"2", ⟨"b", none⟩, "subscribed", "t2"⟩]
            (fun m => !(m == 0))).notified.filter (fun q => 0 < q.1) := by
  have h := C8_renderer_isolation none
    [⟨"1", ⟨"a", none⟩, "mention", "t1"⟩, ⟨"2", ⟨"b", none⟩, "subscribed", "t2"⟩]
    0 allOk (fun m => !(m == 0)) (fun j hj => by simp [allOk, hj])
  exact ⟨h.1, h.2.2.1⟩

/-- C9: because an absent or empty persistence file loads as the collection
containing the empty string, a fetched record whose id and updated_at are both
empty has key `""`, is classified as already seen on such a run — including a
first run with no history file — and is never dispatched. -/
theorem C9_empty_key_preseen (file : Option String) (records : List Notification)
    (ok : Nat → Bool) (j : Nat) (h : j < records.length)
    (hfile : file = none ∨ file = some "")
    (hid : (records.get ⟨j, h⟩).id = "")
    (hts : (records.get ⟨j, h⟩).updated_at = "") :
    seenKey (records.get ⟨j, h⟩) ∈ read_id_strs file
    ∧ (successRun file records ok).notified.countP (fun q => q.1 == j) = 0 := by
  have hkey : seenKey (records.get ⟨j, h⟩) = "" := by
    rw [seenKey, hid, hts]
    rfl
  have h1 : read_id_strs file = [""] := by
    rcases hfile with rfl | rfl <;> rfl
  have hmem : seenKey (records.get ⟨j, h⟩) ∈ read_id_strs file := by
    rw [hkey, h1]
    simp
  refine ⟨hmem, ?_⟩
  show (dedupLoop (read_id_strs file) ok 0 records).notified.countP
      (fun q => q.1 == j) = 0
  have hcount := dedupLoop_count_at (read_id_strs file) ok records 0 j h
  rw [Nat.zero_add] at hcount
  rw [hcount, if_pos hmem]

/-- C9 witness: on a first run with no history file, the empty-id empty-time
record at position 0 is classified as seen and dispatches nothing. -/
theorem C9_empty_key_preseen_witness :
    (0 : Nat) < 1
    ∧ seenKey ((⟨"", ⟨"t", none⟩, "mention", ""⟩ : Notification)) ∈ read_id_strs none
    ∧ (successRun none [⟨"", ⟨"t", none⟩, "mention", ""⟩] allOk).notified.countP
        (fun q => q.1 == 0) = 0 := by
  have h := C9_empty_key_preseen none [⟨"", ⟨"t", none⟩, "mention", ""⟩] allOk 0
    (by decide) (Or.inl rfl) (by decide) (by decide)
  exact ⟨by decide, h.1, h.2⟩

/-- C10: on a non-200 response, the connection-error notification's detail is
the response body with every space character removed (the body split on spaces
and the pieces concatenated), while the unmodified body is printed to standard
output. -/
theorem C10_detail_despaced (token : String) (file : Option String) (status : Nat)
    (text : String) (json : Option (List Notification)) (ok : Nat → Bool)
    (h : status ≠ 200) :
    (program (some token) file (.response status text json) ok).errorNotes
        = [.connectionError (some status)
            (String.mk (text.data.filter (fun c => !(c == ' '))))]
    ∧ (program (some token) file (.response status text json) ok).stdout
        = [.errorResponse status text] := by
  simp only [program]
  rw [if_pos h]
  refine ⟨?_, rfl⟩
  rw [join_splitChar]

/-- C10 witness: a 401 body `"Bad credentials now"` yields the detail
`"Badcredentialsnow"` in the error notification and the unmodified body on
stdout. -/
theorem C10_detail_despaced_witness :
    ((401 : Nat) ≠ 200)
    ∧ (program (some "tok") none
        (.response 401 "Bad credentials now" none) allOk).errorNotes
      = [.connectionError (some 401)
          (String.mk ("Bad credentials now".data.filter (fun c => !(c == ' '))))] :=
  ⟨by decide,
   (C10_detail_despaced "tok" none 401 "Bad credentials now" none allOk (by decide)).1⟩

end GhNotifier


